import Mathlib

/-!
Verification development for the markov-strings library (src/dist/index.js).

The JavaScript source is shallowly embedded below:
* item strings are tokenized with an executable model of
  JavaScript String.prototype.split(" ") (splitChars / splitSpace);
* the Markov model state (data, stateSize, corpus, startWords, endWords)
  is a record, and buildCorpusSync is a fold over the data items that
  mirrors the source line by line (in particular it resets only the
  corpus field, exactly as line 59 of the source does);
* generateSentenceSync is embedded with an explicit random source
  (rng : Nat -> Nat, consumed at an explicit index by each sample call)
  and with the outer retry loop and the inner walk loop both expressed
  as fuel recursion on maxTries, exactly the bounds of the source;
* JavaScript reference identity of item records is modelled by value
  identity of the Item structure, whose tag field stands for the object
  identity (two distinct records with the same text carry distinct tags).
-/

/-- Model of JavaScript String.prototype.split(" ") at the character-list
level: split on every single space character, keeping empty pieces.
Always returns a nonempty list (splitting the empty string gives one
empty piece, as in JavaScript). -/
def splitChars : List Char → List (List Char)
  | [] => [[]]
  | c :: cs =>
    match splitChars cs with
    | [] => [[c]]
    | p :: ps => if c = ' ' then [] :: p :: ps else (c :: p) :: ps

/-- Model of Array.prototype.join(" ") at the character-list level. -/
def joinChars : List (List Char) → List Char
  | [] => []
  | [p] => p
  | p :: ps => p ++ ' ' :: joinChars ps

/-- JavaScript s.split(" ") on strings. -/
def splitSpace (s : String) : List String := (splitChars s.data).map String.mk

/-- JavaScript array.join(" ") on strings. -/
def joinSpace (l : List String) : String := String.mk (joinChars (l.map String.data))

/-- Characters removed by JavaScript String.prototype.trim (the ASCII
whitespace relevant to this code base). -/
def isJsSpace (c : Char) : Bool :=
  c = ' ' || c = '\t' || c = '\n' || c = '\r' || c = '\x0b' || c = '\x0c'

/-- Model of JavaScript String.prototype.trim. -/
def trimJs (s : String) : String :=
  String.mk (((s.data.dropWhile isJsSpace).reverse.dropWhile isJsSpace).reverse)

/-- JavaScript string length (the sentences handled here are ASCII, where
UTF-16 unit count and character count agree). -/
def strLenJs (s : String) : Nat := s.data.length

/-- Word count of a sentence as the source computes it:
sentence.split(" ").length. -/
def wordCountJs (s : String) : Nat := (splitSpace s).length

/-- JavaScript Math.ceil(a / b) for nonnegative integers (b positive). -/
def ceilDivJs (a b : Nat) : Nat := (a + b - 1) / b

/-- A data item: the source text plus a tag standing for the identity of
the JavaScript object (distinct records with equal text get distinct
tags); any further metadata of the record is irrelevant to the code. -/
structure Item where
  string : String
  tag : Nat
deriving DecidableEq, Repr

/-- An entry of startWords, endWords, or of a corpus bucket: a state key
(words) together with the list of contributing items (refs). -/
structure Entry where
  words : String
  refs : List Item
deriving DecidableEq, Repr

/-- The corpus: a string-keyed map, modelled as an association list in
insertion order (the source never iterates over the keys, so only lookup
of the first binding matters). -/
abbrev Corpus : Type := List (String × List Entry)

/-- Lookup of corpus[k] (undefined when the key is absent). -/
def corpusFind (c : Corpus) (k : String) : Option (List Entry) :=
  (c.find? (fun kv => decide (kv.1 = k))).map (fun kv => kv.2)

/-- Replace the first element satisfying p by its image under f, keep
everything else: the effect of mutating the object returned by
Array.prototype.find. -/
def updateFirst (p : α → Bool) (f : α → α) : List α → List α
  | [] => []
  | x :: xs => if p x then f x :: xs else x :: updateFirst p f xs

/-- The startWords / endWords update of buildCorpusSync (lines 64-85):
find the entry with this key; if found, push the item unless it is
already among the refs (identity dedup); otherwise append a new entry. -/
def addRefEntry (l : List Entry) (key : String) (item : Item) : List Entry :=
  if l.any (fun e => decide (e.words = key)) then
    updateFirst (fun e => decide (e.words = key))
      (fun e => if item ∈ e.refs then e else { e with refs := e.refs ++ [item] }) l
  else l ++ [{ words := key, refs := [item] }]

/-- The corpus bucket update (lines 96-102): find the transition with
this successor key; if found, push the item unconditionally (no dedup);
otherwise append a new transition. -/
def addTransition (entries : List Entry) (next : String) (item : Item) : List Entry :=
  if entries.any (fun e => decide (e.words = next)) then
    updateFirst (fun e => decide (e.words = next))
      (fun e => { e with refs := e.refs ++ [item] }) entries
  else entries ++ [{ words := next, refs := [item] }]

/-- corpus update for one (curr, next) pair (lines 93-106). -/
def addCorpusEntry (c : Corpus) (curr next : String) (item : Item) : Corpus :=
  if c.any (fun kv => decide (kv.1 = curr)) then
    updateFirst (fun kv => decide (kv.1 = curr))
      (fun kv => (kv.1, addTransition kv.2 next item)) c
  else c ++ [(curr, [{ words := next, refs := [item] }])]

/-- The sliding-window corpus loop of buildCorpusSync for one item
(lines 87-107): for i from 0 to words.length - 2, take curr and next
windows of stateSize words; skip when next is the empty string or its
split word count differs from stateSize; otherwise record the
transition. -/
def corpusStepItem (s : Nat) (c : Corpus) (item : Item) : Corpus :=
  let words := splitSpace item.string
  (List.range (words.length - 1)).foldl
    (fun c i =>
      let currS := joinSpace ((words.drop i).take s)
      let nextS := joinSpace ((words.drop (i + s)).take s)
      if nextS.data = [] ∨ (splitSpace nextS).length ≠ s then c
      else addCorpusEntry c currS nextS item) c

/-- Start key of an item: join of the first stateSize words (line 65). -/
def startKey (s : Nat) (item : Item) : String :=
  joinSpace ((splitSpace item.string).take s)

/-- End key of an item: join of the last stateSize words (line 76; the
lodash slice clamps a negative start to 0, which is Nat subtraction). -/
def endKey (s : Nat) (item : Item) : String :=
  let words := splitSpace item.string
  joinSpace (words.drop (words.length - s))

/-- The state of a Markov instance: the fields set by the constructor
and mutated by buildCorpusSync. -/
@[ext] structure MarkovState where
  data : List Item
  stateSize : Nat
  corpus : Corpus
  startWords : List Entry
  endWords : List Entry
deriving DecidableEq, Repr

/-- The state right after the constructor ran on already well-formed
data: startWords, endWords empty, corpus an empty object (lines 14-16). -/
def initState (data : List Item) (s : Nat) : MarkovState :=
  ⟨data, s, [], [], []⟩

/-- One data item processed by buildCorpusSync (lines 60-108): update
startWords, endWords and the corpus. -/
def buildStepItem (s : Nat) (st : MarkovState) (item : Item) : MarkovState :=
  { st with
    startWords := addRefEntry st.startWords (startKey s item) item,
    endWords := addRefEntry st.endWords (endKey s item) item,
    corpus := corpusStepItem s st.corpus item }

/-- buildCorpusSync (lines 57-109): reset this.corpus to an empty object
(line 59 resets only the corpus, not startWords or endWords), then fold
over the data. -/
def buildCorpusSync (m : MarkovState) : MarkovState :=
  m.data.foldl (buildStepItem m.stateSize) { m with corpus := [] }

/-- A generation result (line 173-178). -/
structure MarkovResult where
  string : String
  score : Nat
  scorePerWord : Nat
  refs : List Item
deriving DecidableEq, Repr

/-- Options relevant to generateSentenceSync after option merging (the
defaults of the constructor are stateSize 2, all thresholds 0, maxTries
10000, no checker, no filter). -/
structure MarkovOptions where
  stateSize : Nat
  maxLength : Nat
  minWords : Nat
  maxWords : Nat
  minScore : Nat
  minScorePerWord : Nat
  maxTries : Nat
  checker : Option (String → Bool)
  filter : Option (MarkovResult → Bool)

/-- Errors generateSentenceSync can raise. -/
inductive GenError
  /-- the Error of line 138 (never reachable, see jsObjTruthy) -/
  | modelNotBuilt
  /-- a TypeError: reading the words property of undefined -/
  | typeError
  /-- the Error of line 192 -/
  | generationExhausted
deriving DecidableEq, Repr

/-- JavaScript truthiness of this.corpus at line 137: the constructor
initializes this.corpus to an object (line 16), and every JavaScript
object is truthy, so the not-built guard can never fire. -/
def jsObjTruthy (_c : Corpus) : Bool := true

/-- lodash sample: pick an element at a random index; undefined on an
empty collection.  The random source supplies the index. -/
def sampleList (l : List α) (r : Nat) : Option α := l.get? (r % l.length)

/-- flatten(arr.map(o => o.refs)) (line 177). -/
def catRefs : List Entry → List Item
  | [] => []
  | e :: t => e.refs ++ catRefs t

/-- lodash uniqBy(l, "string"): keep the first occurrence of each
distinct string field. -/
def uniqByStringAux (seen : List String) : List Item → List Item
  | [] => []
  | it :: rest =>
    if it.string ∈ seen then uniqByStringAux seen rest
    else it :: uniqByStringAux (it.string :: seen) rest

/-- lodash uniqBy(l, "string") with no string seen yet. -/
def uniqByString (l : List Item) : List Item := uniqByStringAux [] l

/-- Outcome of the inner walk loop (lines 152-170): the entries pushed
after the start entry, the accumulated score, the ended flag, and the
index of the next unused random draw. -/
structure WalkOut where
  path : List Entry
  score : Nat
  ended : Bool
  nextIdx : Nat
deriving DecidableEq, Repr

/-- The inner walk loop (lines 152-170), as fuel recursion on
maxTries - limit: look up the last block in the corpus snapshot, sample
one transition (undefined breaks the walk), push it, add the branching
count minus one to the score, and stop when the new words match an
endWords entry. -/
def walkFrom (c : Corpus) (ew : List Entry) (rng : Nat → Nat) :
    Nat → Nat → Entry → WalkOut
  | 0, idx, _ => ⟨[], 0, false, idx⟩
  | fuel + 1, idx, block =>
    let entries := (corpusFind c block.words).getD []
    match sampleList entries (rng idx) with
    | none => ⟨[], 0, false, idx⟩
    | some state =>
      let sc := entries.length - 1
      if ew.any (fun e => decide (e.words = state.words)) then
        ⟨[state], sc, true, idx + 1⟩
      else
        let w := walkFrom c ew rng fuel (idx + 1) state
        ⟨state :: w.path, sc + w.score, w.ended, w.nextIdx⟩

/-- The candidate result composed at lines 171-178 from the start entry
and the walk outcome. -/
def buildResult (start : Entry) (w : WalkOut) : MarkovResult :=
  let path := start :: w.path
  let sentence := trimJs (joinSpace (path.map (fun e => e.words)))
  { string := sentence
    score := w.score
    scorePerWord := ceilDivJs w.score path.length
    refs := uniqByString (catRefs path) }

/-- The rejection condition of lines 180-187.  A Nat option is truthy
exactly when it is positive, so the JavaScript pair of checks
(truthy and positive) collapses to one positivity test. -/
def isRejected (opts : MarkovOptions) (ended : Bool) (r : MarkovResult) : Bool :=
  !ended
  || (match opts.checker with | some c => !(c r.string) | none => false)
  || (match opts.filter with | some f => !(f r) | none => false)
  || (decide (0 < opts.minWords) && decide (wordCountJs r.string < opts.minWords))
  || (decide (0 < opts.maxWords) && decide (opts.maxWords < wordCountJs r.string))
  || (decide (0 < opts.maxLength) && decide (opts.maxLength < strLenJs r.string))
  || (decide (opts.minScore ≠ 0) && decide (r.score < opts.minScore))
  || (decide (opts.minScorePerWord ≠ 0) && decide (r.scorePerWord < opts.minScorePerWord))

/-- The outer retry loop (lines 147-191), as fuel recursion on
maxTries - i: sample a start entry (sampling the empty startWords list
yields undefined, and reading its words property throws a TypeError),
run the inner walk, compose the candidate, and return it unless it is
rejected.  Exhausting the fuel is the Error of line 192. -/
def generateLoop (m : MarkovState) (opts : MarkovOptions) (rng : Nat → Nat) :
    Nat → Nat → Except GenError MarkovResult
  | 0, _ => .error .generationExhausted
  | fuel + 1, idx =>
    match sampleList m.startWords (rng idx) with
    | none => .error .typeError
    | some start =>
      let w := walkFrom m.corpus m.endWords rng opts.maxTries (idx + 1) start
      let r := buildResult start w
      if isRejected opts w.ended r then generateLoop m opts rng fuel w.nextIdx
      else .ok r

/-- generateSentenceSync (lines 136-193).  The corpus snapshot of line
144 is value copying, which is implicit in the pure embedding. -/
def generateSentenceSync (m : MarkovState) (opts : MarkovOptions) (rng : Nat → Nat) :
    Except GenError MarkovResult :=
  if jsObjTruthy m.corpus = false then .error .modelNotBuilt
  else generateLoop m opts rng opts.maxTries 0

/-- Branching score recomputed from a finished path: for each
consecutive pair, the number of transitions available at the
predecessor, minus one. -/
def pathScore (c : Corpus) : List Entry → Nat
  | [] => 0
  | [_] => 0
  | a :: b :: t => (((corpusFind c a.words).getD []).length - 1) + pathScore c (b :: t)

/-! ### Lemmas about the split / join model -/

theorem splitChars_ne_nil (l : List Char) : splitChars l ≠ [] := by
  cases l with
  | nil => simp [splitChars]
  | cons c cs =>
    simp only [splitChars]
    cases h : splitChars cs with
    | nil => simp
    | cons p ps =>
      by_cases hc : c = ' ' <;> simp [hc]

theorem splitChars_no_space (l : List Char) :
    ∀ p ∈ splitChars l, ' ' ∉ p := by
  induction l with
  | nil => intro p hp; simp [splitChars] at hp; simp [hp]
  | cons c cs ih =>
    intro p hp
    simp only [splitChars] at hp
    cases h : splitChars cs with
    | nil => exact absurd h (splitChars_ne_nil cs)
    | cons q qs =>
      rw [h] at hp ih
      by_cases hc : c = ' '
      · simp [hc] at hp
        rcases hp with rfl | rfl | hp
        · simp
        · exact ih _ (List.mem_cons_self _ _)
        · exact ih p (List.mem_cons_of_mem q hp)
      · simp [hc] at hp
        rcases hp with hp | hp
        · subst hp
          intro hmem
          rcases List.mem_cons.mp hmem with h1 | h1
          · exact hc h1.symm
          · exact ih q (List.mem_cons_self q qs) h1
        · exact ih p (List.mem_cons_of_mem q hp)

theorem splitChars_cons_space (l : List Char) :
    splitChars (' ' :: l) = [] :: splitChars l := by
  simp only [splitChars]
  cases h : splitChars l with
  | nil => exact absurd h (splitChars_ne_nil l)
  | cons p ps => simp

theorem splitChars_prepend (p : List Char) (hp : ' ' ∉ p) :
    ∀ (r : List Char) (h : List Char) (t : List (List Char)),
      splitChars r = h :: t → splitChars (p ++ r) = (p ++ h) :: t := by
  induction p with
  | nil => intro r h t hr; simpa using hr
  | cons c p ihp =>
    intro r h t hr
    have hc : c ≠ ' ' := fun hcc => hp (hcc ▸ List.mem_cons_self c p)
    have hp2 : ' ' ∉ p := fun hm => hp (List.mem_cons_of_mem c hm)
    have := ihp hp2 r h t hr
    simp only [List.cons_append, splitChars, List.append_eq]
    rw [this]
    simp [hc]

theorem splitChars_of_no_space (p : List Char) (hp : ' ' ∉ p) :
    splitChars p = [p] := by
  have := splitChars_prepend p hp [] [] [] rfl
  simpa using this

theorem splitChars_joinChars (pl : List (List Char)) (hne : pl ≠ [])
    (hs : ∀ p ∈ pl, ' ' ∉ p) : splitChars (joinChars pl) = pl := by
  induction pl with
  | nil => exact absurd rfl hne
  | cons p ps ih =>
    cases ps with
    | nil =>
      simp only [joinChars]
      exact splitChars_of_no_space p (hs p (List.mem_cons_self p []))
    | cons q qs =>
      have hrest : splitChars (joinChars (q :: qs)) = q :: qs :=
        ih (by simp) (fun x hx => hs x (List.mem_cons_of_mem p hx))
      have hstep : splitChars (' ' :: joinChars (q :: qs)) =
          [] :: q :: qs := by
        rw [splitChars_cons_space, hrest]
      have hp : ' ' ∉ p := hs p (List.mem_cons_self p (q :: qs))
      have := splitChars_prepend p hp (' ' :: joinChars (q :: qs)) [] (q :: qs) hstep
      simpa [joinChars] using this

theorem string_mk_data (s : String) : String.mk s.data = s := rfl

theorem splitSpace_joinSpace (l : List String) (hne : l ≠ [])
    (hs : ∀ w ∈ l, ' ' ∉ w.data) : splitSpace (joinSpace l) = l := by
  unfold splitSpace joinSpace
  rw [splitChars_joinChars (l.map String.data)
      (by simpa using hne)
      (by intro p hp
          rcases List.mem_map.mp hp with ⟨w, hw, rfl⟩
          exact hs w hw)]
  rw [List.map_map]
  have : (String.mk ∘ String.data) = id := by
    funext s; exact string_mk_data s
  rw [this, List.map_id]

theorem splitSpace_ne_nil (s : String) : splitSpace s ≠ [] := by
  unfold splitSpace
  intro h
  exact splitChars_ne_nil s.data (List.map_eq_nil_iff.mp h)

theorem joinSpace_nil_data : (joinSpace []).data = [] := rfl

theorem splitSpace_no_space (s : String) :
    ∀ w ∈ splitSpace s, ' ' ∉ w.data := by
  intro w hw
  rcases List.mem_map.mp hw with ⟨p, hp, rfl⟩
  exact splitChars_no_space s.data p hp

/-! ### Lemmas about updateFirst and the entry updates -/

theorem updateFirst_length (p : α → Bool) (f : α → α) :
    ∀ l : List α, (updateFirst p f l).length = l.length := by
  intro l
  induction l with
  | nil => rfl
  | cons x xs ih =>
    simp only [updateFirst]
    by_cases hx : p x <;> simp [hx, ih]

theorem map_updateFirst (p : α → Bool) (f : α → α) (g : α → β)
    (hf : ∀ x, g (f x) = g x) :
    ∀ l : List α, (updateFirst p f l).map g = l.map g := by
  intro l
  induction l with
  | nil => rfl
  | cons x xs ih =>
    simp only [updateFirst]
    by_cases hx : p x <;> simp [hx, ih, hf]

theorem mem_updateFirst (p : α → Bool) (f : α → α) :
    ∀ l : List α, ∀ a ∈ updateFirst p f l, a ∈ l ∨ ∃ b ∈ l, a = f b := by
  intro l
  induction l with
  | nil => intro a ha; simp [updateFirst] at ha
  | cons x xs ih =>
    intro a ha
    simp only [updateFirst] at ha
    by_cases hx : p x
    · simp only [if_pos hx, List.mem_cons] at ha
      rcases ha with rfl | ha
      · exact Or.inr ⟨x, List.mem_cons_self x xs, rfl⟩
      · exact Or.inl (List.mem_cons_of_mem x ha)
    · simp only [if_neg hx, List.mem_cons] at ha
      rcases ha with rfl | ha
      · exact Or.inl (List.mem_cons_self a xs)
      · rcases ih a ha with h | ⟨b, hb, rfl⟩
        · exact Or.inl (List.mem_cons_of_mem x h)
        · exact Or.inr ⟨b, List.mem_cons_of_mem x hb, rfl⟩

theorem updateFirst_exists_mem (p : α → Bool) (f : α → α) :
    ∀ l : List α, l.any p = true →
      ∃ x ∈ l, p x = true ∧ f x ∈ updateFirst p f l := by
  intro l
  induction l with
  | nil => intro h; simp at h
  | cons x xs ih =>
    intro h
    by_cases hx : p x
    · exact ⟨x, List.mem_cons_self x xs, hx, by simp [updateFirst, hx]⟩
    · have : xs.any p = true := by
        simp only [List.any_cons, hx] at h
        simpa using h
      rcases ih this with ⟨y, hy, hpy, hmem⟩
      exact ⟨y, List.mem_cons_of_mem x hy, hpy,
        by simp only [updateFirst, if_neg hx]; exact List.mem_cons_of_mem x hmem⟩

theorem updateFirst_mem_transport (p : α → Bool) (f : α → α) :
    ∀ l : List α, ∀ a ∈ l,
      a ∈ updateFirst p f l ∨ f a ∈ updateFirst p f l := by
  intro l
  induction l with
  | nil => intro a ha; simp at ha
  | cons x xs ih =>
    intro a ha
    simp only [updateFirst]
    rcases List.mem_cons.mp ha with rfl | ha
    · by_cases hx : p a
      · rw [if_pos hx]; exact Or.inr (List.mem_cons_self _ _)
      · rw [if_neg hx]; exact Or.inl (List.mem_cons_self _ _)
    · by_cases hx : p x
      · rw [if_pos hx]; exact Or.inl (List.mem_cons_of_mem _ ha)
      · rw [if_neg hx]
        rcases ih a ha with h | h
        · exact Or.inl (List.mem_cons_of_mem _ h)
        · exact Or.inr (List.mem_cons_of_mem _ h)

theorem updateFirst_eq_self (p : α → Bool) (f : α → α) :
    ∀ l : List α, (∀ x ∈ l, p x = true → f x = x) → updateFirst p f l = l := by
  intro l
  induction l with
  | nil => intro _; rfl
  | cons x xs ih =>
    intro h
    simp only [updateFirst]
    by_cases hx : p x
    · rw [if_pos hx, h x (List.mem_cons_self x xs) hx]
    · rw [if_neg hx, ih (fun y hy hpy => h y (List.mem_cons_of_mem x hy) hpy)]

/-- The state keys of a startWords / endWords list, in order. -/
def entryKeys (l : List Entry) : List String := l.map (fun e => e.words)

/-- The item has already been recorded in the entry for this key. -/
def absorbedRef (l : List Entry) (key : String) (it : Item) : Prop :=
  ∃ e ∈ l, e.words = key ∧ it ∈ e.refs

theorem addRefEntry_keys_nodup (l : List Entry) (key : String) (it : Item)
    (h : (entryKeys l).Nodup) : (entryKeys (addRefEntry l key it)).Nodup := by
  unfold addRefEntry
  by_cases hany : l.any (fun e => decide (e.words = key)) = true
  · rw [if_pos hany]
    unfold entryKeys
    rw [map_updateFirst]
    · exact h
    · intro x
      by_cases hx : it ∈ x.refs <;> simp [hx]
  · rw [if_neg hany]
    unfold entryKeys at h ⊢
    rw [List.map_append]
    simp only [List.map_cons, List.map_nil]
    rw [List.nodup_append]
    refine ⟨h, List.nodup_singleton key, ?_⟩
    intro a ha hb
    simp only [List.mem_singleton] at hb
    rcases List.mem_map.mp ha with ⟨e, he, hew⟩
    rw [List.any_eq_true] at hany
    exact hany ⟨e, he, by simp [hew, hb]⟩

theorem addRefEntry_absorbs (l : List Entry) (key : String) (it : Item) :
    absorbedRef (addRefEntry l key it) key it := by
  unfold addRefEntry
  by_cases hany : l.any (fun e => decide (e.words = key)) = true
  · rw [if_pos hany]
    rcases updateFirst_exists_mem (fun e : Entry => decide (e.words = key))
      (fun e : Entry => if it ∈ e.refs then e else { e with refs := e.refs ++ [it] })
      l hany with ⟨x, _, hpx, hmem⟩
    have hkey : x.words = key := by simpa using hpx
    by_cases hin : it ∈ x.refs
    · refine ⟨_, hmem, ?_, ?_⟩ <;> simp [hin, hkey]
    · refine ⟨_, hmem, ?_, ?_⟩ <;> simp [hin, hkey]
  · rw [if_neg hany]
    exact ⟨{ words := key, refs := [it] }, List.mem_append_right l (by simp),
      rfl, by simp⟩

theorem addRefEntry_preserves_absorbed (l : List Entry) (k2 : String) (it2 : Item)
    (key : String) (it : Item) (h : absorbedRef l key it) :
    absorbedRef (addRefEntry l k2 it2) key it := by
  rcases h with ⟨e, he, hkey, hin⟩
  unfold addRefEntry
  by_cases hany : l.any (fun e => decide (e.words = k2)) = true
  · rw [if_pos hany]
    rcases updateFirst_mem_transport (fun e : Entry => decide (e.words = k2))
      (fun e : Entry => if it2 ∈ e.refs then e else { e with refs := e.refs ++ [it2] })
      l e he with hm | hm
    · exact ⟨e, hm, hkey, hin⟩
    · by_cases hin2 : it2 ∈ e.refs
      · exact ⟨e, by simpa [hin2] using hm, hkey, hin⟩
      · refine ⟨{ e with refs := e.refs ++ [it2] }, by simpa [hin2] using hm,
          hkey, List.mem_append_left _ hin⟩
  · rw [if_neg hany]
    exact ⟨e, List.mem_append_left _ he, hkey, hin⟩

theorem addRefEntry_eq_of_absorbed (l : List Entry) (key : String) (it : Item)
    (hnd : (entryKeys l).Nodup) (h : absorbedRef l key it) :
    addRefEntry l key it = l := by
  rcases h with ⟨e, he, hkey, hin⟩
  have hany : l.any (fun e => decide (e.words = key)) = true :=
    List.any_eq_true.mpr ⟨e, he, by simp [hkey]⟩
  unfold addRefEntry
  rw [if_pos hany]
  apply updateFirst_eq_self
  intro x hx hpx
  have hxkey : x.words = key := by simpa using hpx
  have hxe : x = e :=
    List.inj_on_of_nodup_map hnd hx he (hxkey.trans hkey.symm)
  subst hxe
  simp [hin]

theorem addRefEntry_nodup_refs (l : List Entry) (key : String) (it : Item)
    (h : ∀ e ∈ l, e.refs.Nodup) :
    ∀ e ∈ addRefEntry l key it, e.refs.Nodup := by
  intro e he
  unfold addRefEntry at he
  by_cases hany : l.any (fun e => decide (e.words = key)) = true
  · rw [if_pos hany] at he
    rcases mem_updateFirst _ _ l e he with hm | ⟨b, hb, rfl⟩
    · exact h e hm
    · by_cases hin : it ∈ b.refs
      · simpa [hin] using h b hb
      · simp only [if_neg hin]
        exact List.Nodup.append (h b hb) (List.nodup_singleton it)
          (by simpa using hin)
  · rw [if_neg hany] at he
    rcases List.mem_append.mp he with hm | hm
    · exact h e hm
    · simp only [List.mem_singleton] at hm
      subst hm
      simp

theorem addRefEntry_ne_nil (l : List Entry) (key : String) (it : Item) :
    addRefEntry l key it ≠ [] := by
  unfold addRefEntry
  by_cases hany : l.any (fun e => decide (e.words = key)) = true
  · rw [if_pos hany]
    intro hcontra
    have := updateFirst_length (fun e => decide (e.words = key))
      (fun e => if it ∈ e.refs then e else { e with refs := e.refs ++ [it] }) l
    rw [hcontra] at this
    rcases l with _ | ⟨x, xs⟩
    · simp at hany
    · simp at this
  · rw [if_neg hany]
    simp

/-- The fold over the data applied to one of startWords / endWords, with
an arbitrary key function (startKey or endKey applied to the item). -/
def refFold (kf : Item → String) (l : List Entry) (data : List Item) : List Entry :=
  data.foldl (fun sw it => addRefEntry sw (kf it) it) l

theorem refFold_keys_nodup (kf : Item → String) (data : List Item) :
    ∀ l : List Entry, (entryKeys l).Nodup → (entryKeys (refFold kf l data)).Nodup := by
  induction data with
  | nil => intro l h; exact h
  | cons d ds ih =>
    intro l h
    exact ih _ (addRefEntry_keys_nodup l (kf d) d h)

theorem refFold_preserves_absorbed (kf : Item → String) (data : List Item)
    (key : String) (it : Item) :
    ∀ l : List Entry, absorbedRef l key it → absorbedRef (refFold kf l data) key it := by
  induction data with
  | nil => intro l h; exact h
  | cons d ds ih =>
    intro l h
    exact ih _ (addRefEntry_preserves_absorbed l (kf d) d key it h)

theorem refFold_absorbs (kf : Item → String) (data : List Item) :
    ∀ l : List Entry, ∀ it ∈ data, absorbedRef (refFold kf l data) (kf it) it := by
  induction data with
  | nil => intro l it hit; simp at hit
  | cons d ds ih =>
    intro l it hit
    rcases List.mem_cons.mp hit with rfl | hit
    · exact refFold_preserves_absorbed kf ds (kf it) it _
        (addRefEntry_absorbs l (kf it) it)
    · exact ih _ it hit

theorem refFold_eq_of_absorbed (kf : Item → String) (data : List Item) :
    ∀ l : List Entry, (entryKeys l).Nodup →
      (∀ it ∈ data, absorbedRef l (kf it) it) → refFold kf l data = l := by
  induction data with
  | nil => intro l _ _; rfl
  | cons d ds ih =>
    intro l hnd habs
    have h1 : addRefEntry l (kf d) d = l :=
      addRefEntry_eq_of_absorbed l (kf d) d hnd (habs d (List.mem_cons_self d ds))
    show refFold kf (addRefEntry l (kf d) d) ds = l
    rw [h1]
    exact ih l hnd (fun it hit => habs it (List.mem_cons_of_mem d hit))

theorem refFold_nodup_refs (kf : Item → String) (data : List Item) :
    ∀ l : List Entry, (∀ e ∈ l, e.refs.Nodup) →
      ∀ e ∈ refFold kf l data, e.refs.Nodup := by
  induction data with
  | nil => intro l h; exact h
  | cons d ds ih =>
    intro l h
    exact ih _ (addRefEntry_nodup_refs l (kf d) d h)

theorem refFold_ne_nil (kf : Item → String) (data : List Item) (hne : data ≠ []) :
    ∀ l : List Entry, refFold kf l data ≠ [] := by
  cases data with
  | nil => exact absurd rfl hne
  | cons d ds =>
    intro l
    have : ∀ (ds : List Item) (l0 : List Entry), l0 ≠ [] → refFold kf l0 ds ≠ [] := by
      intro ds
      induction ds with
      | nil => intro l0 h; exact h
      | cons x xs ih =>
        intro l0 _
        exact ih _ (addRefEntry_ne_nil l0 (kf x) x)
    exact this ds _ (addRefEntry_ne_nil l (kf d) d)

/-- buildCorpusSync splits componentwise: the corpus is rebuilt from
the empty object, startWords and endWords are folded on top of their
previous values. -/
theorem buildCorpusSync_components (m : MarkovState) :
    buildCorpusSync m =
      ⟨m.data, m.stateSize,
       m.data.foldl (corpusStepItem m.stateSize) [],
       refFold (startKey m.stateSize) m.startWords m.data,
       refFold (endKey m.stateSize) m.endWords m.data⟩ := by
  have key : ∀ (s : Nat) (data : List Item) (st : MarkovState),
      data.foldl (buildStepItem s) st =
        ⟨st.data, st.stateSize,
         data.foldl (corpusStepItem s) st.corpus,
         refFold (startKey s) st.startWords data,
         refFold (endKey s) st.endWords data⟩ := by
    intro s data
    induction data with
    | nil => intro st; rfl
    | cons d ds ih =>
      intro st
      show ds.foldl (buildStepItem s) (buildStepItem s st d) = _
      rw [ih (buildStepItem s st d)]
      rfl
  unfold buildCorpusSync
  rw [key m.stateSize m.data { m with corpus := [] }]

/-- A state with a leftover startWords entry, as left by an earlier
build: data holds one line, startWords an entry no line of the data
starts with. -/
def staleState : MarkovState :=
  ⟨[⟨"a b", 0⟩], 2, [], [⟨"x y", []⟩], []⟩

/-- C1 counterexample: buildCorpusSync does not clear startWords before
processing the items; the stale entry survives the rebuild, unlike a
build from the freshly constructed state. -/
theorem buildCorpus_not_clear_cex :
    (buildCorpusSync staleState).startWords =
      [⟨"x y", []⟩, ⟨"a b", [⟨"a b", 0⟩]⟩] ∧
    (buildCorpusSync (initState [⟨"a b", 0⟩] 2)).startWords =
      [⟨"a b", [⟨"a b", 0⟩]⟩] ∧
    (buildCorpusSync staleState).startWords ≠
      (buildCorpusSync (initState [⟨"a b", 0⟩] 2)).startWords := by
  refine ⟨by decide, by decide, by decide⟩

/-- C1 (amended): a second buildCorpusSync call on a model yields
exactly the state of a single build over the model's data - the corpus
is rebuilt from scratch, and the startWords / endWords entries, though
not cleared, absorb every item a second time without any change thanks
to the by-identity ref dedup. -/
theorem buildCorpus_rebuild_idempotent (data : List Item) (s : Nat) :
    buildCorpusSync (buildCorpusSync (initState data s)) =
      buildCorpusSync (initState data s) := by
  rw [buildCorpusSync_components (initState data s)]
  rw [buildCorpusSync_components]
  have hsw : refFold (startKey s) (refFold (startKey s) [] data) data =
      refFold (startKey s) [] data := by
    apply refFold_eq_of_absorbed
    · exact refFold_keys_nodup _ data [] (by simp [entryKeys])
    · intro it hit
      exact refFold_absorbs _ data [] it hit
  have hew : refFold (endKey s) (refFold (endKey s) [] data) data =
      refFold (endKey s) [] data := by
    apply refFold_eq_of_absorbed
    · exact refFold_keys_nodup _ data [] (by simp [entryKeys])
    · intro it hit
      exact refFold_absorbs _ data [] it hit
  show (⟨data, s,
      data.foldl (corpusStepItem s) [],
      refFold (startKey s) (refFold (startKey s) [] data) data,
      refFold (endKey s) (refFold (endKey s) [] data) data⟩ : MarkovState) = _
  rw [hsw, hew]
  rfl

/-! ### The stateSize invariant of corpus keys (C3) -/

/-- Generic foldl invariant. -/
theorem foldl_inv {γ β : Type} {P : γ → Prop} (step : γ → β → γ) :
    ∀ (l : List β) (c : γ), P c → (∀ c b, P c → b ∈ l → P (step c b)) →
      P (l.foldl step c) := by
  intro l
  induction l with
  | nil => intro c hc _; exact hc
  | cons b bs ih =>
    intro c hc hstep
    exact ih (step c b) (hstep c b hc (List.mem_cons_self b bs))
      (fun c2 b2 hc2 hb2 => hstep c2 b2 hc2 (List.mem_cons_of_mem b hb2))

/-- Every corpus key and every transition target splits into exactly s
words. -/
def corpusWF (s : Nat) (c : Corpus) : Prop :=
  ∀ kv ∈ c, (splitSpace kv.1).length = s ∧
    ∀ e ∈ kv.2, (splitSpace e.words).length = s

/-- What passing the guard of line 90 forces: the two windows are full
and round-trip through join and split. -/
theorem corpus_guard_pass (words : List String) (hw : ∀ w ∈ words, ' ' ∉ w.data)
    (i s : Nat)
    (hne : (joinSpace ((words.drop (i + s)).take s)).data ≠ [])
    (hlen : (splitSpace (joinSpace ((words.drop (i + s)).take s))).length = s) :
    1 ≤ s ∧ i + 2 * s ≤ words.length ∧
    (splitSpace (joinSpace ((words.drop i).take s))).length = s := by
  have hnext_ne : (words.drop (i + s)).take s ≠ [] := by
    intro hempty
    rw [hempty] at hne
    exact hne joinSpace_nil_data
  have hnext_sf : ∀ w ∈ (words.drop (i + s)).take s, ' ' ∉ w.data := by
    intro w hwmem
    exact hw w (List.drop_subset _ _ (List.take_subset _ _ hwmem))
  have hround : splitSpace (joinSpace ((words.drop (i + s)).take s)) =
      (words.drop (i + s)).take s :=
    splitSpace_joinSpace _ hnext_ne hnext_sf
  rw [hround] at hlen
  rw [List.length_take, List.length_drop] at hlen
  have hs1 : 1 ≤ s := by
    have : ((words.drop (i + s)).take s).length ≠ 0 := by
      intro h0
      exact hnext_ne (List.eq_nil_of_length_eq_zero h0)
    rw [List.length_take, List.length_drop] at this
    omega
  have hle : s ≤ words.length - (i + s) := by
    rcases Nat.le_total s (words.length - (i + s)) with h | h
    · exact h
    · rw [Nat.min_eq_right h] at hlen; omega
  have hib : i + 2 * s ≤ words.length := by omega
  refine ⟨hs1, hib, ?_⟩
  have hcurr_len : ((words.drop i).take s).length = s := by
    rw [List.length_take, List.length_drop]
    omega
  have hcurr_ne : (words.drop i).take s ≠ [] := by
    intro hempty
    rw [hempty] at hcurr_len
    simp at hcurr_len
    omega
  have hcurr_sf : ∀ w ∈ (words.drop i).take s, ' ' ∉ w.data := by
    intro w hwmem
    exact hw w (List.drop_subset _ _ (List.take_subset _ _ hwmem))
  rw [splitSpace_joinSpace _ hcurr_ne hcurr_sf]
  exact hcurr_len

theorem addTransition_words_len (s : Nat) (entries : List Entry)
    (next : String) (item : Item)
    (h : ∀ e ∈ entries, (splitSpace e.words).length = s)
    (hn : (splitSpace next).length = s) :
    ∀ e ∈ addTransition entries next item, (splitSpace e.words).length = s := by
  intro e he
  unfold addTransition at he
  by_cases hany : entries.any (fun e => decide (e.words = next)) = true
  · rw [if_pos hany] at he
    rcases mem_updateFirst _ _ entries e he with hm | ⟨b, hb, rfl⟩
    · exact h e hm
    · exact h b hb
  · rw [if_neg hany] at he
    rcases List.mem_append.mp he with hm | hm
    · exact h e hm
    · simp only [List.mem_singleton] at hm
      subst hm
      exact hn

theorem addCorpusEntry_wf (s : Nat) (c : Corpus) (curr next : String) (item : Item)
    (hwf : corpusWF s c)
    (hc : (splitSpace curr).length = s)
    (hn : (splitSpace next).length = s) :
    corpusWF s (addCorpusEntry c curr next item) := by
  intro kv hkv
  unfold addCorpusEntry at hkv
  by_cases hany : c.any (fun kv => decide (kv.1 = curr)) = true
  · rw [if_pos hany] at hkv
    rcases mem_updateFirst _ _ c kv hkv with hm | ⟨b, hb, rfl⟩
    · exact hwf kv hm
    · refine ⟨(hwf b hb).1, ?_⟩
      exact addTransition_words_len s b.2 next item (hwf b hb).2 hn
  · rw [if_neg hany] at hkv
    rcases List.mem_append.mp hkv with hm | hm
    · exact hwf kv hm
    · simp only [List.mem_singleton] at hm
      subst hm
      exact ⟨hc, by intro e he; simp only [List.mem_singleton] at he; subst he; exact hn⟩

theorem corpusStepItem_wf (s : Nat) (c : Corpus) (item : Item)
    (hwf : corpusWF s c) : corpusWF s (corpusStepItem s c item) := by
  unfold corpusStepItem
  apply foldl_inv _ _ _ hwf
  intro c2 i hc2 _
  by_cases hguard : (joinSpace (((splitSpace item.string).drop (i + s)).take s)).data = [] ∨
      (splitSpace (joinSpace (((splitSpace item.string).drop (i + s)).take s))).length ≠ s
  · rw [if_pos hguard]
    exact hc2
  · rw [if_neg hguard]
    push_neg at hguard
    rcases corpus_guard_pass (splitSpace item.string)
      (splitSpace_no_space item.string) i s hguard.1 hguard.2 with ⟨_, _, hcurr⟩
    exact addCorpusEntry_wf s c2 _ _ item hc2 hcurr hguard.2

/-- C3: for every built model, every corpus key and every transition
words value splits into exactly stateSize tokens; no shorter trailing
window is ever inserted. -/
theorem corpus_keys_stateSize (m : MarkovState) :
    ∀ kv ∈ (buildCorpusSync m).corpus,
      (splitSpace kv.1).length = m.stateSize ∧
      ∀ e ∈ kv.2, (splitSpace e.words).length = m.stateSize := by
  rw [buildCorpusSync_components m]
  show corpusWF m.stateSize (m.data.foldl (corpusStepItem m.stateSize) [])
  apply foldl_inv
  · intro kv hkv; simp at hkv
  · intro c it hc _
    exact corpusStepItem_wf m.stateSize c it hc

/-! ### Lemmas about the generation walk -/

theorem sampleList_mem {α : Type} (l : List α) (r : Nat) (a : α)
    (h : sampleList l r = some a) : a ∈ l := by
  unfold sampleList at h
  exact List.get?_mem h

theorem sampleList_ne_nil {α : Type} (l : List α) (r : Nat) (hne : l ≠ []) :
    ∃ a, sampleList l r = some a := by
  have hpos : 0 < l.length := List.length_pos.mpr hne
  have hlt : r % l.length < l.length := Nat.mod_lt r hpos
  unfold sampleList
  rw [List.get?_eq_get hlt]
  exact ⟨l.get ⟨r % l.length, hlt⟩, rfl⟩

theorem walkFrom_score (c : Corpus) (ew : List Entry) (rng : Nat → Nat) :
    ∀ (fuel idx : Nat) (b : Entry),
      (walkFrom c ew rng fuel idx b).score =
        pathScore c (b :: (walkFrom c ew rng fuel idx b).path) := by
  intro fuel
  induction fuel with
  | zero => intro idx b; rfl
  | succ n ih =>
    intro idx b
    simp only [walkFrom]
    cases hsample : sampleList ((corpusFind c b.words).getD []) (rng idx) with
    | none => simp [pathScore]
    | some state =>
      dsimp only
      by_cases hend : ew.any (fun e => decide (e.words = state.words)) = true
      · rw [if_pos hend]
        simp [pathScore]
      · rw [if_neg hend]
        dsimp only
        simp only [pathScore]
        rw [ih (idx + 1) state]

theorem walkFrom_path_length (c : Corpus) (ew : List Entry) (rng : Nat → Nat) :
    ∀ (fuel idx : Nat) (b : Entry),
      (walkFrom c ew rng fuel idx b).path.length ≤ fuel := by
  intro fuel
  induction fuel with
  | zero => intro idx b; simp [walkFrom]
  | succ n ih =>
    intro idx b
    simp only [walkFrom]
    cases hsample : sampleList ((corpusFind c b.words).getD []) (rng idx) with
    | none => simp
    | some state =>
      dsimp only
      by_cases hend : ew.any (fun e => decide (e.words = state.words)) = true
      · rw [if_pos hend]
        simp
      · rw [if_neg hend]
        dsimp only [List.length_cons]
        exact Nat.succ_le_succ (ih (idx + 1) state)

theorem walkFrom_succ_none (c : Corpus) (ew : List Entry) (rng : Nat → Nat)
    (n idx : Nat) (b : Entry)
    (hsample : sampleList ((corpusFind c b.words).getD []) (rng idx) = none) :
    walkFrom c ew rng (n + 1) idx b = ⟨[], 0, false, idx⟩ := by
  simp only [walkFrom]
  rw [hsample]

theorem walkFrom_succ_end (c : Corpus) (ew : List Entry) (rng : Nat → Nat)
    (n idx : Nat) (b state : Entry)
    (hsample : sampleList ((corpusFind c b.words).getD []) (rng idx) = some state)
    (hend : (ew.any fun e => decide (e.words = state.words)) = true) :
    walkFrom c ew rng (n + 1) idx b =
      ⟨[state], ((corpusFind c b.words).getD []).length - 1, true, idx + 1⟩ := by
  simp only [walkFrom]
  rw [hsample]
  dsimp only
  rw [if_pos hend]

theorem walkFrom_succ_step (c : Corpus) (ew : List Entry) (rng : Nat → Nat)
    (n idx : Nat) (b state : Entry)
    (hsample : sampleList ((corpusFind c b.words).getD []) (rng idx) = some state)
    (hend : ¬(ew.any fun e => decide (e.words = state.words)) = true) :
    walkFrom c ew rng (n + 1) idx b =
      ⟨state :: (walkFrom c ew rng n (idx + 1) state).path,
       ((corpusFind c b.words).getD []).length - 1 +
         (walkFrom c ew rng n (idx + 1) state).score,
       (walkFrom c ew rng n (idx + 1) state).ended,
       (walkFrom c ew rng n (idx + 1) state).nextIdx⟩ := by
  simp only [walkFrom]
  rw [hsample]
  dsimp only
  rw [if_neg hend]

theorem walkFrom_ended (c : Corpus) (ew : List Entry) (rng : Nat → Nat) :
    ∀ (fuel idx : Nat) (b : Entry),
      (walkFrom c ew rng fuel idx b).ended = true →
      ∃ pre last, (walkFrom c ew rng fuel idx b).path = pre ++ [last] ∧
        ew.any (fun e => decide (e.words = last.words)) = true := by
  intro fuel
  induction fuel with
  | zero => intro idx b h; simp [walkFrom] at h
  | succ n ih =>
    intro idx b h
    cases hsample : sampleList ((corpusFind c b.words).getD []) (rng idx) with
    | none =>
      rw [walkFrom_succ_none c ew rng n idx b hsample] at h
      simp at h
    | some state =>
      by_cases hend : (ew.any fun e => decide (e.words = state.words)) = true
      · rw [walkFrom_succ_end c ew rng n idx b state hsample hend]
        exact ⟨[], state, rfl, hend⟩
      · rw [walkFrom_succ_step c ew rng n idx b state hsample hend] at h ⊢
        dsimp only at h ⊢
        rcases ih (idx + 1) state h with ⟨pre, last, hpath, hlast⟩
        exact ⟨state :: pre, last, by simp [hpath], hlast⟩

theorem walkFrom_empty_corpus (ew : List Entry) (rng : Nat → Nat)
    (fuel idx : Nat) (b : Entry) :
    walkFrom [] ew rng fuel idx b = ⟨[], 0, false, idx⟩ := by
  cases fuel with
  | zero => rfl
  | succ n => rfl

theorem generateLoop_ok (m : MarkovState) (opts : MarkovOptions) (rng : Nat → Nat) :
    ∀ (fuel idx : Nat) (r : MarkovResult),
      generateLoop m opts rng fuel idx = .ok r →
      ∃ (j : Nat) (start : Entry), start ∈ m.startWords ∧
        r = buildResult start (walkFrom m.corpus m.endWords rng opts.maxTries j start) ∧
        isRejected opts (walkFrom m.corpus m.endWords rng opts.maxTries j start).ended r
          = false := by
  intro fuel
  induction fuel with
  | zero => intro idx r h; simp [generateLoop] at h
  | succ n ih =>
    intro idx r h
    simp only [generateLoop] at h
    cases hsample : sampleList m.startWords (rng idx) with
    | none => rw [hsample] at h; simp at h
    | some start =>
      rw [hsample] at h
      dsimp only at h
      by_cases hrej : isRejected opts
          (walkFrom m.corpus m.endWords rng opts.maxTries (idx + 1) start).ended
          (buildResult start (walkFrom m.corpus m.endWords rng opts.maxTries (idx + 1) start))
          = true
      · rw [if_pos hrej] at h
        exact ih _ r h
      · rw [if_neg hrej] at h
        rcases Except.ok.inj h with rfl
        exact ⟨idx + 1, start, sampleList_mem _ _ _ hsample, rfl,
          Bool.eq_false_iff.mpr hrej⟩

theorem generateLoop_error (m : MarkovState) (opts : MarkovOptions) (rng : Nat → Nat)
    (hsw : m.startWords ≠ []) :
    ∀ (fuel idx : Nat) (er : GenError),
      generateLoop m opts rng fuel idx = .error er → er = .generationExhausted := by
  intro fuel
  induction fuel with
  | zero =>
    intro idx er h
    simp only [generateLoop] at h
    exact (Except.error.inj h).symm
  | succ n ih =>
    intro idx er h
    simp only [generateLoop] at h
    rcases sampleList_ne_nil m.startWords (rng idx) hsw with ⟨start, hsample⟩
    rw [hsample] at h
    dsimp only at h

    by_cases hrej : isRejected opts
        (walkFrom m.corpus m.endWords rng opts.maxTries (idx + 1) start).ended
        (buildResult start (walkFrom m.corpus m.endWords rng opts.maxTries (idx + 1) start))
        = true
    · rw [if_pos hrej] at h
      exact ih _ er h
    · rw [if_neg hrej] at h
      exact absurd h (by simp)

/-! ### Lemmas about refs deduplication (uniqBy string) -/

theorem uniqByStringAux_not_seen :
    ∀ (l : List Item) (seen : List String) (it : Item),
      it ∈ uniqByStringAux seen l → it.string ∉ seen := by
  intro l
  induction l with
  | nil => intro seen it h; simp [uniqByStringAux] at h
  | cons x xs ih =>
    intro seen it h
    simp only [uniqByStringAux] at h
    by_cases hx : x.string ∈ seen
    · rw [if_pos hx] at h
      exact ih seen it h
    · rw [if_neg hx] at h
      rcases List.mem_cons.mp h with rfl | h
      · exact hx
      · have := ih (x.string :: seen) it h
        intro hmem
        exact this (List.mem_cons_of_mem _ hmem)

theorem uniqByStringAux_pairwise :
    ∀ (l : List Item) (seen : List String),
      List.Pairwise (fun a b => a.string ≠ b.string) (uniqByStringAux seen l) := by
  intro l
  induction l with
  | nil => intro seen; simp [uniqByStringAux]
  | cons x xs ih =>
    intro seen
    simp only [uniqByStringAux]
    by_cases hx : x.string ∈ seen
    · rw [if_pos hx]
      exact ih seen
    · rw [if_neg hx]
      refine List.Pairwise.cons ?_ (ih (x.string :: seen))
      intro b hb
      have := uniqByStringAux_not_seen xs (x.string :: seen) b hb
      intro hxb
      exact this (hxb ▸ List.mem_cons_self _ _)

theorem uniqByStringAux_covers :
    ∀ (l : List Item) (seen : List String) (it : Item), it ∈ l →
      it.string ∈ seen ∨
      ∃ it2 ∈ uniqByStringAux seen l, it2.string = it.string := by
  intro l
  induction l with
  | nil => intro seen it h; simp at h
  | cons x xs ih =>
    intro seen it h
    simp only [uniqByStringAux]
    rcases List.mem_cons.mp h with rfl | h
    · by_cases hx : it.string ∈ seen
      · exact Or.inl hx
      · rw [if_neg hx]
        exact Or.inr ⟨it, List.mem_cons_self _ _, rfl⟩
    · by_cases hx : x.string ∈ seen
      · rw [if_pos hx]
        exact ih seen it h
      · rw [if_neg hx]
        rcases ih (x.string :: seen) it h with hseen | ⟨it2, hmem, heq⟩
        · rcases List.mem_cons.mp hseen with heq | hseen
          · exact Or.inr ⟨x, List.mem_cons_self _ _, heq.symm⟩
          · exact Or.inl hseen
        · exact Or.inr ⟨it2, List.mem_cons_of_mem x hmem, heq⟩

theorem uniqByString_pairwise (l : List Item) :
    List.Pairwise (fun a b => a.string ≠ b.string) (uniqByString l) :=
  uniqByStringAux_pairwise l []

theorem uniqByString_covers (l : List Item) (it : Item) (h : it ∈ l) :
    ∃ it2 ∈ uniqByString l, it2.string = it.string := by
  rcases uniqByStringAux_covers l [] it h with hseen | hcov
  · simp at hseen
  · exact hcov

/-- What acceptance (non-rejection) at lines 180-189 guarantees. -/
theorem isRejected_false_elim (opts : MarkovOptions) (ended : Bool) (r : MarkovResult)
    (h : isRejected opts ended r = false) :
    ended = true ∧
    (∀ c, opts.checker = some c → c r.string = true) ∧
    (∀ f, opts.filter = some f → f r = true) ∧
    (0 < opts.minWords → opts.minWords ≤ wordCountJs r.string) ∧
    (0 < opts.maxWords → wordCountJs r.string ≤ opts.maxWords) ∧
    (0 < opts.maxLength → strLenJs r.string ≤ opts.maxLength) ∧
    (opts.minScore ≠ 0 → opts.minScore ≤ r.score) ∧
    (opts.minScorePerWord ≠ 0 → opts.minScorePerWord ≤ r.scorePerWord) := by
  simp only [isRejected, Bool.or_eq_false_iff, Bool.and_eq_false_iff] at h
  obtain ⟨⟨⟨⟨⟨⟨⟨h1, h2⟩, h3⟩, h4⟩, h5⟩, h6⟩, h7⟩, h8⟩ := h
  refine ⟨?_, ?_, ?_, ?_, ?_, ?_, ?_, ?_⟩
  · cases ended with
    | false => simp at h1
    | true => rfl
  · intro c hc
    rw [hc] at h2
    dsimp only at h2
    cases hcr : c r.string with
    | false => rw [hcr] at h2; simp at h2
    | true => rfl
  · intro f hf
    rw [hf] at h3
    dsimp only at h3
    cases hfr : f r with
    | false => rw [hfr] at h3; simp at h3
    | true => rfl
  · intro hpos
    rcases h4 with h4 | h4
    · exact absurd hpos (by simpa using h4)
    · have := decide_eq_false_iff_not.mp h4
      omega
  · intro hpos
    rcases h5 with h5 | h5
    · exact absurd hpos (by simpa using h5)
    · have := decide_eq_false_iff_not.mp h5
      omega
  · intro hpos
    rcases h6 with h6 | h6
    · exact absurd hpos (by simpa using h6)
    · have := decide_eq_false_iff_not.mp h6
      omega
  · intro hpos
    rcases h7 with h7 | h7
    · exact absurd hpos (by simpa using h7)
    · have := decide_eq_false_iff_not.mp h7
      omega
  · intro hpos
    rcases h8 with h8 | h8
    · exact absurd hpos (by simpa using h8)
    · have := decide_eq_false_iff_not.mp h8
      omega

/-- The not-built guard of line 137 never fires (an object is truthy),
so generateSentenceSync is the retry loop. -/
theorem generateSentenceSync_eq (m : MarkovState) (opts : MarkovOptions)
    (rng : Nat → Nat) :
    generateSentenceSync m opts rng = generateLoop m opts rng opts.maxTries 0 := rfl

/-- The bounds that make ceilDivJs the ceiling of a / b. -/
theorem ceilDivJs_bounds (a b : Nat) (hb : 0 < b) :
    a ≤ b * ceilDivJs a b ∧ b * ceilDivJs a b < a + b := by
  unfold ceilDivJs
  have key := Nat.div_add_mod (a + b - 1) b
  have hmod : (a + b - 1) % b < b := Nat.mod_lt _ hb
  generalize hp : b * ((a + b - 1) / b) = p at key ⊢
  omega

/-- Everything the acceptance test of lines 180-189 checks on a
returned Result, plus the walk having ended on an endWords state. -/
def acceptedProps (m : MarkovState) (opts : MarkovOptions) (r : MarkovResult) : Prop :=
  (0 < opts.minWords → opts.minWords ≤ wordCountJs r.string) ∧
  (0 < opts.maxWords → wordCountJs r.string ≤ opts.maxWords) ∧
  (0 < opts.maxLength → strLenJs r.string ≤ opts.maxLength) ∧
  (opts.minScore ≠ 0 → opts.minScore ≤ r.score) ∧
  (opts.minScorePerWord ≠ 0 → opts.minScorePerWord ≤ r.scorePerWord) ∧
  (∀ c, opts.checker = some c → c r.string = true) ∧
  (∀ f, opts.filter = some f → f r = true) ∧
  (∃ (pre : List Entry) (last : Entry),
    r.string = trimJs (joinSpace ((pre ++ [last]).map (fun e => e.words))) ∧
    ∃ e2 ∈ m.endWords, e2.words = last.words)

/-- C4: every Result returned by generateSentenceSync satisfies all the
configured acceptance constraints: word count within minWords and
maxWords when positive, character length within maxLength when
positive, score at least minScore when nonzero, scorePerWord at least
minScorePerWord when nonzero, any configured checker and filter
returned true on it, and the walk ended on an EndWords state. -/
theorem generate_ok_satisfies_constraints (m : MarkovState) (opts : MarkovOptions)
    (rng : Nat → Nat) (r : MarkovResult)
    (h : generateSentenceSync m opts rng = .ok r) : acceptedProps m opts r := by
  rw [generateSentenceSync_eq] at h
  rcases generateLoop_ok m opts rng opts.maxTries 0 r h with ⟨j, start, hmem, heq, hrej⟩
  rcases isRejected_false_elim opts _ r hrej with
    ⟨hended, hchk, hflt, hminw, hmaxw, hmaxl, hmins, hminspw⟩
  refine ⟨hminw, hmaxw, hmaxl, hmins, hminspw, hchk, hflt, ?_⟩
  rcases walkFrom_ended m.corpus m.endWords rng opts.maxTries j start hended with
    ⟨pre, last, hpath, hlast⟩
  refine ⟨start :: pre, last, ?_, ?_⟩
  · rw [heq]
    show trimJs (joinSpace ((start ::
        (walkFrom m.corpus m.endWords rng opts.maxTries j start).path).map
          (fun e => e.words))) = _
    rw [hpath]
    simp
  · rcases List.any_eq_true.mp hlast with ⟨e2, he2, hdec⟩
    exact ⟨e2, he2, of_decide_eq_true hdec⟩

/-- C5: for every candidate walk, the accumulated score is the sum over
the walk's steps of the available-transition count minus one, and the
scorePerWord of every returned Result is the ceiling of score divided
by the path length (start element included). -/
theorem score_eq_branching_sum :
    (∀ (c : Corpus) (ew : List Entry) (rng : Nat → Nat) (fuel idx : Nat) (b : Entry),
       (walkFrom c ew rng fuel idx b).score =
         pathScore c (b :: (walkFrom c ew rng fuel idx b).path)) ∧
    (∀ (m : MarkovState) (opts : MarkovOptions) (rng : Nat → Nat) (r : MarkovResult),
       generateSentenceSync m opts rng = .ok r →
       ∃ path : List Entry, path ≠ [] ∧ r.score = pathScore m.corpus path ∧
         r.scorePerWord = ceilDivJs r.score path.length ∧
         r.score ≤ r.scorePerWord * path.length ∧
         r.scorePerWord * path.length < r.score + path.length) := by
  constructor
  · exact walkFrom_score
  · intro m opts rng r h
    rw [generateSentenceSync_eq] at h
    rcases generateLoop_ok m opts rng opts.maxTries 0 r h with ⟨j, start, hmem, heq, hrej⟩
    subst heq
    refine ⟨start :: (walkFrom m.corpus m.endWords rng opts.maxTries j start).path,
      by simp, ?_, rfl, ?_, ?_⟩
    · exact walkFrom_score m.corpus m.endWords rng opts.maxTries j start
    · have hb := ceilDivJs_bounds
        (walkFrom m.corpus m.endWords rng opts.maxTries j start).score
        (start :: (walkFrom m.corpus m.endWords rng opts.maxTries j start).path).length
        (by simp)
      rw [Nat.mul_comm] at hb
      exact hb.1
    · have hb := ceilDivJs_bounds
        (walkFrom m.corpus m.endWords rng opts.maxTries j start).score
        (start :: (walkFrom m.corpus m.endWords rng opts.maxTries j start).path).length
        (by simp)
      rw [Nat.mul_comm] at hb
      exact hb.2

/-- C6 (amended): the inner walk pushes at most maxTries entries, so a
path (start element included) has length at most maxTries + 1, and when
generateSentenceSync fails on a model with nonempty startWords the
error is GenerationExhausted. -/
theorem generate_bounded_and_exhausted :
    (∀ (c : Corpus) (ew : List Entry) (rng : Nat → Nat) (fuel idx : Nat) (b : Entry),
        (walkFrom c ew rng fuel idx b).path.length ≤ fuel) ∧
    (∀ (m : MarkovState) (opts : MarkovOptions) (rng : Nat → Nat) (er : GenError),
        m.startWords ≠ [] → generateSentenceSync m opts rng = .error er →
        er = .generationExhausted) := by
  constructor
  · exact walkFrom_path_length
  · intro m opts rng er hsw h
    rw [generateSentenceSync_eq] at h
    exact generateLoop_error m opts rng hsw opts.maxTries 0 er h

/-- C7: the refs of every returned Result are the flattened refs of the
path deduplicated by the string field, first occurrence first: no two
entries share a string, and every path ref is represented by exactly
its first-occurring string. -/
theorem result_refs_dedup (m : MarkovState) (opts : MarkovOptions)
    (rng : Nat → Nat) (r : MarkovResult)
    (h : generateSentenceSync m opts rng = .ok r) :
    List.Pairwise (fun a b => a.string ≠ b.string) r.refs ∧
    ∃ path : List Entry, path ≠ [] ∧
      r.refs = uniqByString (catRefs path) ∧
      ∀ it ∈ catRefs path, ∃ it2 ∈ r.refs, it2.string = it.string := by
  rw [generateSentenceSync_eq] at h
  rcases generateLoop_ok m opts rng opts.maxTries 0 r h with ⟨j, start, hmem, heq, hrej⟩
  subst heq
  constructor
  · exact uniqByString_pairwise _
  · refine ⟨start :: (walkFrom m.corpus m.endWords rng opts.maxTries j start).path,
      by simp, rfl, ?_⟩
    intro it hit
    exact uniqByString_covers _ it hit

/-! ### The never-built model (C2) -/

/-- C2: on a freshly constructed model that was never built, startWords
is empty, so the first attempt samples undefined and reading its words
property throws a TypeError; the ModelNotBuilt guard of line 137 never
fires because the constructor initializes this.corpus to a truthy
object. -/
theorem generate_unbuilt_typeError (data : List Item) (s : Nat)
    (opts : MarkovOptions) (rng : Nat → Nat) (h : 1 ≤ opts.maxTries) :
    generateSentenceSync (initState data s) opts rng = .error .typeError ∧
    generateSentenceSync (initState data s) opts rng ≠ .error .modelNotBuilt := by
  have hmain : generateSentenceSync (initState data s) opts rng = .error .typeError := by
    rw [generateSentenceSync_eq]
    obtain ⟨n, hn⟩ : ∃ n, opts.maxTries = n + 1 := ⟨opts.maxTries - 1, by omega⟩
    rw [hn]
    simp only [generateLoop]
    have hnone : sampleList (initState data s).startWords (rng 0) = none := rfl
    rw [hnone]
  refine ⟨hmain, ?_⟩
  rw [hmain]
  simp

/-! ### Models with no transitions (C9) -/

theorem foldl_id {γ β : Type} (step : γ → β → γ) :
    ∀ (l : List β) (c : γ), (∀ c2 b, b ∈ l → step c2 b = c2) → l.foldl step c = c := by
  intro l
  induction l with
  | nil => intro c _; rfl
  | cons b bs ih =>
    intro c h
    show bs.foldl step (step c b) = c
    rw [h c b (List.mem_cons_self b bs)]
    exact ih c (fun c2 b2 hb2 => h c2 b2 (List.mem_cons_of_mem b hb2))

theorem corpusStepItem_short (s : Nat) (c : Corpus) (item : Item)
    (hshort : (splitSpace item.string).length < 2 * s) :
    corpusStepItem s c item = c := by
  unfold corpusStepItem
  apply foldl_id
  intro c2 i _
  have hcond : (joinSpace (((splitSpace item.string).drop (i + s)).take s)).data = [] ∨
      (splitSpace (joinSpace (((splitSpace item.string).drop (i + s)).take s))).length
        ≠ s := by
    by_contra hcon
    push_neg at hcon
    rcases corpus_guard_pass (splitSpace item.string)
      (splitSpace_no_space item.string) i s hcon.1 hcon.2 with ⟨hs1, hib, _⟩
    omega
  rw [if_pos hcond]

theorem build_corpus_empty_of_short (data : List Item) (s : Nat)
    (hlines : ∀ it ∈ data, (splitSpace it.string).length < 2 * s) :
    (buildCorpusSync (initState data s)).corpus = [] := by
  rw [buildCorpusSync_components]
  show data.foldl (corpusStepItem s) [] = []
  apply foldl_id
  intro c2 it hit
  exact corpusStepItem_short s c2 it (hlines it hit)

theorem generate_empty_corpus_exhausted (m : MarkovState) (opts : MarkovOptions)
    (rng : Nat → Nat) (hc : m.corpus = []) (hsw : m.startWords ≠ []) :
    generateSentenceSync m opts rng = .error .generationExhausted := by
  rw [generateSentenceSync_eq]
  suffices hall : ∀ fuel idx, generateLoop m opts rng fuel idx =
      .error .generationExhausted from hall opts.maxTries 0
  intro fuel
  induction fuel with
  | zero => intro idx; rfl
  | succ n ih =>
    intro idx
    simp only [generateLoop]
    rcases sampleList_ne_nil m.startWords (rng idx) hsw with ⟨start, hsample⟩
    rw [hsample]
    dsimp only
    have hwalk : walkFrom m.corpus m.endWords rng opts.maxTries (idx + 1) start =
        ⟨[], 0, false, idx + 1⟩ := by
      rw [hc]
      exact walkFrom_empty_corpus m.endWords rng opts.maxTries (idx + 1) start
    rw [hwalk]
    have hrej : isRejected opts (WalkOut.mk [] 0 false (idx + 1)).ended
        (buildResult start ⟨[], 0, false, idx + 1⟩) = true := by
      simp [isRejected]
    rw [if_pos hrej]
    exact ih (idx + 1)

/-- C9 (amended): when every data line has fewer than 2 * stateSize
words the built corpus holds no transition at all, and generation over
that model never takes a walk step, never sets ended, and always fails
with GenerationExhausted - whether or not the start state is also an
end state. -/
theorem short_lines_no_transitions_exhausted (data : List Item) (s : Nat)
    (opts : MarkovOptions) (rng : Nat → Nat)
    (hlines : ∀ it ∈ data, (splitSpace it.string).length < 2 * s)
    (hne : data ≠ []) :
    (buildCorpusSync (initState data s)).corpus = [] ∧
    generateSentenceSync (buildCorpusSync (initState data s)) opts rng =
      .error .generationExhausted := by
  have hc := build_corpus_empty_of_short data s hlines
  refine ⟨hc, ?_⟩
  apply generate_empty_corpus_exhausted _ _ _ hc
  rw [buildCorpusSync_components]
  show refFold (startKey s) [] data ≠ []
  exact refFold_ne_nil _ data hne []

/-! ### The dedup asymmetry (C8) -/

/-- C8: startWords and endWords entries deduplicate refs by item
identity (so their ref lists never hold duplicates), while corpus
transitions push the item unconditionally: the single line of the
concrete model repeats the pair a to b, and the item appears twice in
that transition's refs. -/
theorem refs_dedup_asymmetry :
    (∀ (data : List Item) (s : Nat) (e : Entry),
        e ∈ (buildCorpusSync (initState data s)).startWords → e.refs.Nodup) ∧
    (∀ (data : List Item) (s : Nat) (e : Entry),
        e ∈ (buildCorpusSync (initState data s)).endWords → e.refs.Nodup) ∧
    corpusFind (buildCorpusSync (initState [⟨"a b a b", 0⟩] 1)).corpus "a" =
      some [⟨"b", [⟨"a b a b", 0⟩, ⟨"a b a b", 0⟩]⟩] := by
  refine ⟨?_, ?_, by decide⟩
  · intro data s e he
    rw [buildCorpusSync_components] at he
    exact refFold_nodup_refs (startKey s) data [] (by simp) e he
  · intro data s e he
    rw [buildCorpusSync_components] at he
    exact refFold_nodup_refs (endKey s) data [] (by simp) e he

/-! ### The constructor's input-shape validation (C10) -/

/-- An element of the raw constructor argument: a plain string, an
object carrying a string property (the tag stands for the object
identity and extra metadata), or an object without one. -/
inductive RawElem
  | str (s : String)
  | objWith (s : String) (tag : Nat)
  | objWithout (tag : Nat)
deriving DecidableEq, Repr

/-- An element of this.data after the constructor: either wrapped into
a fresh record whose string property holds the original value (the
data.map of line 31), or kept as is. -/
inductive NormItem
  | wrapped (e : RawElem)
  | plain (e : RawElem)
deriving DecidableEq, Repr

/-- Errors of the constructor's data validation. -/
inductive CtorError
  /-- reading a property of undefined: data was empty, data[0] is
  undefined and calling hasOwnProperty on it throws -/
  | typeErr
  /-- the Error of line 34 -/
  | missingStringProp
deriving DecidableEq, Repr

/-- lodash isString of an element. -/
def isStringElem : RawElem → Bool
  | .str _ => true
  | _ => false

/-- elem.hasOwnProperty of the string key (for a primitive string this
is false, but the code never asks). -/
def hasStringProp : RawElem → Bool
  | .objWith _ _ => true
  | _ => false

/-- The data normalization of the constructor (lines 29-36): inspect
data[0]; when it is a string, wrap every element; when it is an object
carrying a string property, keep the list; otherwise throw. -/
def formatData : List RawElem → Except CtorError (List NormItem)
  | [] => .error .typeErr
  | e :: rest =>
    if isStringElem e then .ok ((e :: rest).map .wrapped)
    else if hasStringProp e then .ok ((e :: rest).map .plain)
    else .error .missingStringProp

/-- C10: the constructor's input-shape validation inspects only the
first element: the list is wrapped exactly when the first element is a
string, the missing-property error is raised exactly when the first
element is a non-string without the property, and a malformed element
at any later position is accepted unchanged. -/
theorem constructor_checks_first_element (e : RawElem) (rest : List RawElem) :
    (formatData (e :: rest) = .error .missingStringProp ↔
      (isStringElem e = false ∧ hasStringProp e = false)) ∧
    (isStringElem e = true →
      formatData (e :: rest) = .ok ((e :: rest).map .wrapped)) ∧
    (isStringElem e = false → hasStringProp e = true →
      formatData (e :: rest) = .ok ((e :: rest).map .plain)) ∧
    (isStringElem e = false →
      formatData (e :: rest) ≠ .ok ((e :: rest).map .wrapped)) := by
  cases e <;> simp [formatData, isStringElem, hasStringProp]

/-! ### Concrete models used by the counterexamples and witnesses -/

def specItemA : Item := ⟨"the cat sat on the mat", 0⟩

def specItemB : Item := ⟨"the dog sat on the rug", 1⟩

/-- The two-line model of the specification's concrete scenario. -/
def specModel : MarkovState := buildCorpusSync (initState [specItemA, specItemB] 2)

/-- The merged options when neither the constructor nor the call
overrides anything. -/
def defaultOptionsM : MarkovOptions := ⟨2, 0, 0, 0, 0, 0, 10000, none, none⟩

/-- The default options with maxTries lowered to 2. -/
def triesTwoOptions : MarkovOptions := ⟨2, 0, 0, 0, 0, 0, 2, none, none⟩

/-- A random source that always picks the first element. -/
def zeroRng : Nat → Nat := fun _ => 0

/-- The result the spec scenario expects for the cat sentence. -/
def specResult : MarkovResult := ⟨"the cat sat on the mat", 1, 1, [specItemA]⟩

/-- The startWords entry of the first spec item. -/
def startEntryA : Entry := ⟨"the cat", [specItemA]⟩

/-- A model whose single line has exactly 2 words with stateSize 2:
start state equals end state and the corpus has no transition. -/
def modelAB : MarkovState := buildCorpusSync (initState [⟨"a b", 0⟩] 2)

/-- A model whose single line has exactly 4 words with stateSize 2:
one transition from the start state straight to the end state. -/
def pathModel : MarkovState := buildCorpusSync (initState [⟨"a b c d", 0⟩] 2)

/-- C6 counterexample: with maxTries = 1 a single walk over pathModel
already produces a path of 2 elements (start plus one pushed
transition), so maxTries is not a ceiling on path length - and the call
accepts and returns that 2-element path. -/
theorem walk_path_exceeds_maxTries_cex :
    1 + (walkFrom pathModel.corpus pathModel.endWords zeroRng 1 1
        ⟨"a b", [⟨"a b c d", 0⟩]⟩).path.length = 2 ∧
    generateSentenceSync pathModel ⟨2, 0, 0, 0, 0, 0, 1, none, none⟩ zeroRng =
      .ok ⟨"a b c d", 0, 0, [⟨"a b c d", 0⟩]⟩ :=
  ⟨by decide, by rfl⟩

/-- C9 counterexample: in modelAB the start state is also an end state,
yet the walk never sets ended (the end check runs only after a
successful transition, and there is none) and generation fails with
GenerationExhausted instead of ending on the first step. -/
theorem short_line_start_is_end_cex :
    (∃ e ∈ modelAB.startWords, ∃ e2 ∈ modelAB.endWords, e.words = e2.words) ∧
    (walkFrom modelAB.corpus modelAB.endWords zeroRng 2 1
        ⟨"a b", [⟨"a b", 0⟩]⟩).ended = false ∧
    generateSentenceSync modelAB triesTwoOptions zeroRng =
      .error .generationExhausted :=
  ⟨by decide, by decide, by rfl⟩

/-! ### Witnesses -/

theorem generate_unbuilt_typeError_witness :
    generateSentenceSync (initState [⟨"a b", 0⟩] 2) defaultOptionsM zeroRng =
      .error .typeError ∧
    generateSentenceSync (initState [⟨"a b", 0⟩] 2) defaultOptionsM zeroRng ≠
      .error .modelNotBuilt :=
  generate_unbuilt_typeError [⟨"a b", 0⟩] 2 defaultOptionsM zeroRng (by decide)

theorem corpus_keys_stateSize_witness :
    (splitSpace ("the cat", [Entry.mk "sat on" [specItemA]]).1).length =
      specModel.stateSize ∧
    ∀ e ∈ ("the cat", [Entry.mk "sat on" [specItemA]]).2,
      (splitSpace e.words).length = specModel.stateSize :=
  corpus_keys_stateSize specModel ("the cat", [Entry.mk "sat on" [specItemA]])
    (by decide)

theorem generate_ok_satisfies_constraints_witness :
    acceptedProps specModel defaultOptionsM specResult :=
  generate_ok_satisfies_constraints specModel defaultOptionsM zeroRng specResult
    (by rfl)

theorem score_eq_branching_sum_witness :
    ((walkFrom specModel.corpus specModel.endWords zeroRng 10000 1 startEntryA).score =
      pathScore specModel.corpus (startEntryA ::
        (walkFrom specModel.corpus specModel.endWords zeroRng 10000 1 startEntryA).path)) ∧
    (∃ path : List Entry, path ≠ [] ∧
      specResult.score = pathScore specModel.corpus path ∧
      specResult.scorePerWord = ceilDivJs specResult.score path.length ∧
      specResult.score ≤ specResult.scorePerWord * path.length ∧
      specResult.scorePerWord * path.length < specResult.score + path.length) :=
  ⟨score_eq_branching_sum.1 specModel.corpus specModel.endWords zeroRng 10000 1
      startEntryA,
   score_eq_branching_sum.2 specModel defaultOptionsM zeroRng specResult (by rfl)⟩

theorem generate_bounded_and_exhausted_witness :
    (walkFrom specModel.corpus specModel.endWords zeroRng 10000 1
      startEntryA).path.length ≤ 10000 ∧
    GenError.generationExhausted = GenError.generationExhausted :=
  ⟨generate_bounded_and_exhausted.1 specModel.corpus specModel.endWords zeroRng
      10000 1 startEntryA,
   generate_bounded_and_exhausted.2 modelAB triesTwoOptions zeroRng
     .generationExhausted (by decide) (by rfl)⟩

theorem result_refs_dedup_witness :
    List.Pairwise (fun a b => a.string ≠ b.string) specResult.refs ∧
    ∃ path : List Entry, path ≠ [] ∧
      specResult.refs = uniqByString (catRefs path) ∧
      ∀ it ∈ catRefs path, ∃ it2 ∈ specResult.refs, it2.string = it.string :=
  result_refs_dedup specModel defaultOptionsM zeroRng specResult (by rfl)

theorem refs_dedup_asymmetry_witness :
    (Entry.mk "the cat" [specItemA]).refs.Nodup ∧
    (Entry.mk "the mat" [specItemA]).refs.Nodup :=
  ⟨refs_dedup_asymmetry.1 [specItemA, specItemB] 2 ⟨"the cat", [specItemA]⟩
      (by decide),
   refs_dedup_asymmetry.2.1 [specItemA, specItemB] 2 ⟨"the mat", [specItemA]⟩
      (by decide)⟩

theorem short_lines_no_transitions_exhausted_witness :
    (buildCorpusSync (initState [⟨"a b", 0⟩] 2)).corpus = [] ∧
    generateSentenceSync (buildCorpusSync (initState [⟨"a b", 0⟩] 2))
        triesTwoOptions zeroRng = .error .generationExhausted :=
  short_lines_no_transitions_exhausted [⟨"a b", 0⟩] 2 triesTwoOptions zeroRng
    (by decide) (by decide)

theorem constructor_checks_first_element_witness :
    (formatData (RawElem.objWith "a" 0 :: [RawElem.objWithout 1]) =
        .error .missingStringProp ↔
      (isStringElem (RawElem.objWith "a" 0) = false ∧
       hasStringProp (RawElem.objWith "a" 0) = false)) ∧
    (isStringElem (RawElem.objWith "a" 0) = true →
      formatData (RawElem.objWith "a" 0 :: [RawElem.objWithout 1]) =
        .ok ((RawElem.objWith "a" 0 :: [RawElem.objWithout 1]).map .wrapped)) ∧
    (isStringElem (RawElem.objWith "a" 0) = false →
      hasStringProp (RawElem.objWith "a" 0) = true →
      formatData (RawElem.objWith "a" 0 :: [RawElem.objWithout 1]) =
        .ok ((RawElem.objWith "a" 0 :: [RawElem.objWithout 1]).map .plain)) ∧
    (isStringElem (RawElem.objWith "a" 0) = false →
      formatData (RawElem.objWith "a" 0 :: [RawElem.objWithout 1]) ≠
        .ok ((RawElem.objWith "a" 0 :: [RawElem.objWithout 1]).map .wrapped)) :=
  constructor_checks_first_element (RawElem.objWith "a" 0) [RawElem.objWithout 1]
